import Mathlib

/-!
Verification of the video-downloader backend (src-tauri/src/lib.rs) against its
natural-language specification.

Modelling conventions (shallow embedding):
* Rust strings are modelled as Lean `String`s / `List Char`s (character level;
  UTF-8 byte indices are not modelled — every string the claims exercise is ASCII).
* Rust `f64` values produced by parsing decimal text and by progress arithmetic
  are modelled exactly as rationals (`ℚ`).
* Fallible operations return `Except String`; the environment (filesystem
  existence checks, HTTP responses, the spawned process' outcome) is passed in
  explicitly as data.
* Event emission (`app.emit(..)`) is modelled as appending to a result list of
  `Event`s; `.ok()` on emission (swallowing emit errors) has no observable
  effect in this model.
-/

namespace VideoDownloader

/-- Characters accepted by the backward scan in `parse_progress`
(Rust: `c.is_ascii_digit() || c == '.'`). -/
def isNumChar (c : Char) : Bool := c.isDigit || c == '.'

/-- Accumulate the numeric value of a run of ASCII digits. -/
def digitsVal (ds : List Char) : Nat :=
  ds.foldl (fun a c => 10 * a + (c.toNat - Char.toNat '0')) 0

/-- Rust `str::parse::<f64>` restricted to the strings `parse_progress` can feed
it (runs of ASCII digits and dots): accepted iff the string is nonempty, has at
most one dot, and contains at least one digit; the value is exact (`ℚ`). -/
def parseDecimal (cs : List Char) : Option ℚ :=
  let ip := cs.takeWhile Char.isDigit
  match cs.dropWhile Char.isDigit with
  | [] => if ip.isEmpty then none else some ((digitsVal ip : ℚ))
  | d :: fp =>
    if d == '.' && fp.all Char.isDigit && (!ip.isEmpty || !fp.isEmpty) then
      some ((digitsVal ip : ℚ) + (digitsVal fp : ℚ) / ((10 ^ fp.length : ℕ) : ℚ))
    else none

/-- Embedding of `parse_progress` (lib.rs lines 303–311): find the first `%`,
take the text before it, keep its maximal trailing run of digits/dots, and
parse that run as a number. -/
def parse_progress (line : String) : Option ℚ :=
  let cs := line.data
  if '%' ∈ cs then
    let before := cs.takeWhile (fun c => c != '%')
    let num := (before.reverse.takeWhile isNumChar).reverse
    parseDecimal num
  else none

/-- Every character of a string accepted by `parseDecimal` is a digit or a dot. -/
theorem parseDecimal_isNum {N : List Char} {v : ℚ} (h : parseDecimal N = some v) :
    ∀ c ∈ N, isNumChar c = true := by
  intro c hc
  rw [← List.takeWhile_append_dropWhile Char.isDigit N] at hc
  rcases List.mem_append.1 hc with h1 | h2
  · have := List.mem_takeWhile_imp h1
    simp [isNumChar, this]
  · cases hrest : N.dropWhile Char.isDigit with
    | nil =>
      rw [hrest] at h2
      simp at h2
    | cons d fp =>
      rw [hrest] at h2
      simp only [parseDecimal, hrest] at h
      split at h
      · rename_i hcond
        simp only [Bool.and_eq_true, beq_iff_eq, List.all_eq_true] at hcond
        rcases List.mem_cons.1 h2 with h2 | h2
        · rw [h2, hcond.1.1]
          decide
        · have := hcond.1.2 c h2
          simp [isNumChar, this]
      · exact absurd h (by simp)

/-- Claim C1 as stated in the specification: whenever the input contains a
substring `N%` with `N` a valid non-negative decimal and the character just
before `N` (if any) neither an ASCII digit nor `.` nor `%`, `parse_progress`
returns exactly `N`'s value. -/
def claim_c1 : Prop :=
  ∀ (pre N post : List Char) (v : ℚ),
    parseDecimal N = some v →
    (pre = [] ∨ ∃ c, pre.getLast? = some c ∧ ¬c.isDigit ∧ c ≠ '.' ∧ c ≠ '%') →
    parse_progress (String.mk (pre ++ N ++ '%' :: post)) = some v

/-- C1 (counterexample): the claim fails on the line `"% 5%"`. It contains the
substring `"5%"`, `"5"` is a valid decimal, and the character before it is a
space — yet `parse_progress` returns `none`, because it anchors on the FIRST
`%` of the line, whose preceding text is empty. -/
theorem c1_counterexample : ¬claim_c1 := by
  intro h
  have h5 : parseDecimal ['5'] = some 5 := by with_unfolding_all decide
  have := h ['%', ' '] ['5'] [] 5 h5
    (Or.inr ⟨' ', by decide, by decide, by decide, by decide⟩)
  have hnone : parse_progress (String.mk (['%', ' '] ++ ['5'] ++ '%' :: [])) = none := by decide
  rw [hnone] at this
  exact Option.noConfusion this

/-- C1 (amended): the claim holds once the `%` terminating `N` is required to
be the FIRST `%` of the line (no `%` occurs in the text before `N`): if the
line is `pre ++ N ++ "%" ++ post`, `N` parses as a decimal with value `v`,
`pre` contains no `%`, and the last character of `pre` (if any) is neither an
ASCII digit nor `.` nor `%`, then `parse_progress` returns exactly `v`. -/
theorem c1_amended (pre N post : List Char) (v : ℚ)
    (hv : parseDecimal N = some v)
    (hpre : '%' ∉ pre)
    (hlast : pre = [] ∨ ∃ c, pre.getLast? = some c ∧ ¬c.isDigit ∧ c ≠ '.' ∧ c ≠ '%') :
    parse_progress (String.mk (pre ++ N ++ '%' :: post)) = some v := by
  have hN : ∀ c ∈ N, isNumChar c = true := parseDecimal_isNum hv
  have hNpct : ∀ c ∈ N, (c != '%') = true := by
    intro c hc
    have := hN c hc
    simp only [isNumChar, Bool.or_eq_true, beq_iff_eq] at this
    simp only [bne_iff_ne, ne_eq]
    rcases this with hd | hdot
    · intro he; rw [he] at hd; exact absurd hd (by decide)
    · intro he; rw [he] at hdot; exact absurd hdot (by decide)
  have hprepct : ∀ c ∈ pre, (c != '%') = true := by
    intro c hc
    simp only [bne_iff_ne, ne_eq]
    intro he
    exact hpre (he ▸ hc)
  have hbefore :
      (pre ++ N ++ '%' :: post).takeWhile (fun c => c != '%') = pre ++ N := by
    rw [List.append_assoc, List.takeWhile_append_of_pos hprepct,
      List.takeWhile_append_of_pos hNpct, ← List.append_assoc]
    simp
  have hpretw : pre.reverse.takeWhile isNumChar = [] := by
    cases hrev : pre.reverse with
    | nil => simp
    | cons c rest =>
      have hcl : pre.getLast? = some c := by
        rw [← List.head?_reverse, hrev]
        rfl
      rcases hlast with hnil | ⟨c', hc', hdig, hdot, _⟩
      · rw [hnil] at hrev; simp at hrev
      · rw [hcl] at hc'
        have hcc : c = c' := by injection hc'
        subst hcc
        have hnum : isNumChar c = false := by
          simp only [isNumChar, Bool.or_eq_false_iff]
          constructor
          · exact Bool.of_not_eq_true hdig
          · exact beq_false_of_ne hdot
        simp [List.takeWhile_cons, hnum]
  have hnum :
      (((pre ++ N).reverse.takeWhile isNumChar).reverse) = N := by
    rw [List.reverse_append, List.takeWhile_append_of_pos
      (fun c hc => hN c (List.mem_reverse.1 hc)), hpretw]
    simp
  unfold parse_progress
  have hmem : '%' ∈ (String.mk (pre ++ N ++ '%' :: post)).data := by simp
  simp only [String.data] at hmem ⊢
  rw [if_pos hmem, hbefore, hnum, hv]

/-- Witness for C1 (amended): the line `" 45.5%x"` decomposed as
`pre = " "`, `N = "45.5"`, `post = "x"` satisfies every hypothesis, and the
parser recovers exactly `45.5`. -/
theorem c1_amended_witness :
    parseDecimal ['4', '5', '.', '5'] = some (45.5 : ℚ)
    ∧ parse_progress (String.mk ([' '] ++ ['4', '5', '.', '5'] ++ '%' :: ['x']))
        = some (45.5 : ℚ) :=
  ⟨by with_unfolding_all decide,
    c1_amended [' '] ['4', '5', '.', '5'] ['x'] (45.5 : ℚ)
      (by with_unfolding_all decide) (by decide)
      (Or.inr ⟨' ', by decide, by decide, by decide, by decide⟩)⟩

/-- C2: `parse_progress` anchors on the first `%`, scans backward over ASCII
digits and dots, parses that substring, and returns `none` when the line has
no `%` (or when the substring fails to parse, witnessed by the bare `"%"`).
The four documented evaluations hold: `"  45.5% of 10MiB" ↦ 45.5`,
`"no percent here" ↦ none`, `"%" ↦ none`, `"100%done" ↦ 100`. -/
theorem c2_parse_progress_algorithm :
    parse_progress "  45.5% of 10MiB" = some (45.5 : ℚ)
    ∧ parse_progress "no percent here" = none
    ∧ parse_progress "%" = none
    ∧ parse_progress "100%done" = some 100
    ∧ ∀ line : String, '%' ∉ line.data → parse_progress line = none := by
  refine ⟨by with_unfolding_all decide, by decide, by decide,
    by with_unfolding_all decide, ?_⟩
  intro line h
  unfold parse_progress
  simp [h]

/-- Witness for C2: the universally quantified conjunct applied to a concrete
line without any `%`. -/
theorem c2_witness : '%' ∉ "abc".data ∧ parse_progress "abc" = none :=
  ⟨by decide, c2_parse_progress_algorithm.2.2.2.2 "abc" (by decide)⟩

-- ── Events ────────────────────────────────────────────────────────────────────

/-- The events the backend emits to the frontend (lib.rs `app.emit(..)` calls),
with their payloads. -/
inductive Event where
  | setupTask (msg : String)
  | setupProgress (v : ℚ)
  | setupDone
  | downloadLog (line : String)
  | downloadProgress (v : ℚ)
  | downloadComplete
  | downloadError (msg : String)
deriving DecidableEq

/-- Embedding of the stdout streaming task body for one line (lib.rs lines
162–170): emit the raw line as `download-log`, then, if `parse_progress`
succeeds, emit `download-progress` with the percentage divided by 100. -/
def stdout_line_events (line : String) : List Event :=
  let log := [Event.downloadLog line]
  match parse_progress line with
  | some pct => log ++ [Event.downloadProgress (pct / 100)]
  | none => log

/-- C9: whenever `parse_progress` returns `P` on a stdout line, the task emits
`download-progress` with payload exactly `P / 100` (after the `download-log`
event), and when `P > 100` that payload is strictly greater than 1 — emitted
progress values are never clamped to `[0, 1]`. -/
theorem c9_no_clamping (line : String) (P : ℚ) (h : parse_progress line = some P) :
    stdout_line_events line
      = [Event.downloadLog line, Event.downloadProgress (P / 100)]
    ∧ (100 < P → 1 < P / 100) := by
  constructor
  · simp [stdout_line_events, h]
  · intro hP
    exact (one_lt_div (by norm_num : (0:ℚ) < 100)).2 hP

/-- Witness for C9: the line `"250%"` parses to 250 and yields a
`download-progress` payload of `5/2 > 1`. -/
theorem c9_witness :
    parse_progress "250%" = some 250
    ∧ (stdout_line_events "250%"
        = [Event.downloadLog "250%", Event.downloadProgress ((250 : ℚ) / 100)]
      ∧ (100 < (250 : ℚ) → 1 < (250 : ℚ) / 100)) :=
  ⟨by with_unfolding_all decide,
    c9_no_clamping "250%" 250 (by with_unfolding_all decide)⟩

-- ── Job Supervisor: start_download state transition (lib.rs 105–210) ─────────

/-- The shared state (lib.rs lines 11–13): the Job Slot holding an optional
one-shot cancellation sender. Senders are identified by numbers. -/
structure AppState where
  cancel_tx : Option Nat
deriving DecidableEq

/-- Embedding of the synchronous part of `start_download` (lib.rs lines
116–158) as a state transition. The fallible environment steps —
`create_dir_all` for the output folder and spawning yt-dlp — are passed in as
`Except` values; `new_tx` is the fresh sender created on success. Returns the
command result, the final Job Slot state, and the list of senders that were
signalled by the preemption step. -/
def start_download (st : AppState) (create_dir : Except String Unit)
    (spawn : Except String Unit) (new_tx : Nat) :
    Except String Unit × AppState × List Nat :=
  let pre : AppState × List Nat :=
    match st.cancel_tx with
    | some tx => (⟨none⟩, [tx])
    | none => (st, [])
  match create_dir with
  | .error e => (.error ("Cannot create output folder: " ++ e), pre.1, pre.2)
  | .ok _ =>
    match spawn with
    | .error e => (.error ("Failed to launch yt-dlp: " ++ e), pre.1, pre.2)
    | .ok _ => (.ok (), ⟨some new_tx⟩, pre.2)

/-- C3 (counterexample): spawning fails with the Job Slot holding sender 7.
The call does return a descriptive error, but the slot does NOT still hold
sender 7: the preemption step at the top of `start_download` already took (and
signalled) it, so the slot ends empty. -/
theorem c3_counterexample :
    (start_download ⟨some 7⟩ (.ok ()) (.error "boom") 9).1
      = .error "Failed to launch yt-dlp: boom"
    ∧ (start_download ⟨some 7⟩ (.ok ()) (.error "boom") 9).2.1 ≠ AppState.mk (some 7)
    ∧ (start_download ⟨some 7⟩ (.ok ()) (.error "boom") 9).2.2 = [7] := by
  refine ⟨rfl, ?_, rfl⟩
  decide

/-- C3 (amended): when spawning the downloader fails, `start_download` returns
a descriptive error and stores no new sender: the Job Slot ends empty, any
previously held sender having been taken and signalled by the preemption step
at the start of the call. -/
theorem c3_amended (st : AppState) (e : String) (new_tx : Nat) :
    (start_download st (.ok ()) (.error e) new_tx).1
      = .error ("Failed to launch yt-dlp: " ++ e)
    ∧ (start_download st (.ok ()) (.error e) new_tx).2.1.cancel_tx = none
    ∧ (start_download st (.ok ()) (.error e) new_tx).2.2
        = st.cancel_tx.toList := by
  cases st with
  | mk tx =>
    cases tx with
    | none => exact ⟨rfl, rfl, rfl⟩
    | some t => exact ⟨rfl, rfl, rfl⟩

-- ── Job Supervisor: the exit/cancellation race (lib.rs 181–207) ──────────────

/-- Events emitted when the supervising task observes the process' own exit
(lib.rs lines 189–200): a wait result is either an exit status — modelled as
`Option Int`, the optional exit code — or a wait error. -/
def exit_events (result : Except String (Option Int)) : List Event :=
  match result with
  | .ok status =>
    if status = some 0 then [Event.downloadComplete]
    else [Event.downloadError ("yt-dlp exited with code " ++ toString (status.getD (-1)))]
  | .error e => [Event.downloadError e]

/-- Which arm of the `tokio::select!` in the supervising task resolves first:
the process exit (with its wait result) or the cancellation signal. -/
inductive RaceWinner where
  | exited (result : Except String (Option Int))
  | cancelSignal

/-- Actions the supervising task performs, in order. -/
inductive Action where
  | setFlag
  | kill
  | emit (e : Event)
deriving DecidableEq

/-- Embedding of the supervising task (lib.rs lines 185–207): if the exit arm
wins, it first checks the `cancelled` flag and returns silently when set,
otherwise emits the terminal event(s); if the cancellation arm wins, it sets
the flag and then kills the child. -/
def supervise_task : RaceWinner → Bool → List Action
  | .exited r, flag => if flag then [] else (exit_events r).map Action.emit
  | .cancelSignal, _ => [Action.setFlag, Action.kill]

/-- The events actually emitted among a list of actions. -/
def emittedEvents (acts : List Action) : List Event :=
  acts.filterMap fun a =>
    match a with
    | .emit e => some e
    | _ => none

/-- Terminal events are `download-complete` and `download-error`. -/
def isTerminal : Event → Bool
  | .downloadComplete => true
  | .downloadError _ => true
  | _ => false

/-- Number of terminal events in a list. -/
def terminalCount (es : List Event) : Nat := (es.filter isTerminal).length

/-- C4: when the supervising task observes process exit without cancellation
(flag unset): exit code 0 emits exactly `[download-complete]`; any other exit
status emits exactly one `download-error` whose message carries the code (or
-1 when no code is available); a wait error emits exactly one `download-error`
carrying its description — and in every case exactly one terminal event
fires. -/
theorem c4_exit_code_mapping (r : Except String (Option Int)) :
    (r = .ok (some 0) →
      emittedEvents (supervise_task (.exited r) false) = [Event.downloadComplete])
    ∧ (∀ status : Option Int, r = .ok status → status ≠ some 0 →
        emittedEvents (supervise_task (.exited r) false)
          = [Event.downloadError ("yt-dlp exited with code " ++ toString (status.getD (-1)))])
    ∧ (∀ e : String, r = .error e →
        emittedEvents (supervise_task (.exited r) false) = [Event.downloadError e])
    ∧ terminalCount (emittedEvents (supervise_task (.exited r) false)) = 1 := by
  refine ⟨?_, ?_, ?_, ?_⟩
  · intro h
    subst h
    rfl
  · intro status h hne
    subst h
    simp [supervise_task, exit_events, emittedEvents, hne]
  · intro e h
    subst h
    rfl
  · cases r with
    | error e => rfl
    | ok status =>
      by_cases h : status = some 0
      · subst h
        rfl
      · simp [supervise_task, exit_events, emittedEvents, terminalCount, isTerminal, h]

/-- Witness for C4: a process exiting with code 2 produces exactly the
`download-error` event naming code 2. -/
theorem c4_witness :
    emittedEvents (supervise_task (.exited (.ok (some 2))) false)
      = [Event.downloadError ("yt-dlp exited with code " ++ toString ((some (2:ℤ)).getD (-1)))] :=
  (c4_exit_code_mapping (.ok (some 2))).2.1 (some 2) rfl (by decide)

/-- C8: when the cancellation signal wins the race, the task sets the
cancelled flag and only then kills the child (and emits nothing itself); with
the flag set, a later resolution of the exit arm emits nothing; and for every
race outcome the supervising task emits at most one terminal event — so at
most one of `download-complete` / `download-error` ever fires, never both, and
neither fires after cancellation is observed. -/
theorem c8_cancellation_suppression :
    (∀ flag : Bool, supervise_task RaceWinner.cancelSignal flag
        = [Action.setFlag, Action.kill])
    ∧ (∀ r : Except String (Option Int), supervise_task (.exited r) true = [])
    ∧ (∀ (w : RaceWinner) (flag : Bool),
        terminalCount (emittedEvents (supervise_task w flag)) ≤ 1) := by
  refine ⟨fun _ => rfl, fun _ => rfl, ?_⟩
  intro w flag
  cases w with
  | cancelSignal => simp [supervise_task, emittedEvents, terminalCount]
  | exited r =>
    cases flag with
    | true => simp [supervise_task, emittedEvents, terminalCount]
    | false =>
      cases r with
      | error e => simp [supervise_task, exit_events, emittedEvents, terminalCount, isTerminal]
      | ok status =>
        by_cases h : status = some 0
        · subst h
          simp [supervise_task, exit_events, emittedEvents, terminalCount, isTerminal]
        · simp [supervise_task, exit_events, emittedEvents, terminalCount, isTerminal, h]

-- ── Dependency Provisioner (lib.rs 53–103, 233–264, 266–289) ─────────────────

/-- An HTTP response as `download_file` consumes it: the optional
`content_length` header and the byte-chunk stream, each chunk either data
(bytes as naturals) or a stream error. Local filesystem writes are modelled as
infallible (the destination file is the returned chunk list). -/
structure HttpResp where
  content_length : Option Nat
  chunks : List (Except String (List Nat))

/-- The streaming loop of `download_file` (lib.rs lines 251–261): accumulate
`received`, write each chunk, and when `total > 0` emit a progress fraction
`start + received/total * (end - start)` after each chunk. Returns the result,
the chunks written to the destination, and the emitted progress values. -/
def dfLoop (total : Nat) (s e : ℚ) :
    List (Except String (List Nat)) → Nat →
    Except String Unit × List (List Nat) × List ℚ
  | [], _ => (.ok (), [], [])
  | .error err :: _, _ => (.error err, [], [])
  | .ok c :: rest, received =>
    let received' := received + c.length
    let evs : List ℚ :=
      if 0 < total then [s + ((received' : ℚ) / (total : ℚ)) * (e - s)] else []
    let r := dfLoop total s e rest received'
    (r.1, c :: r.2.1, evs ++ r.2.2)

/-- Embedding of `download_file` (lib.rs lines 233–264): a failed request is
returned as an error; otherwise `total` is the content length defaulted to 0
and the stream is consumed by `dfLoop` starting from `received = 0`. -/
def download_file (resp : Except String HttpResp) (s e : ℚ) :
    Except String Unit × List (List Nat) × List ℚ :=
  match resp with
  | .error err => (.error err, [], [])
  | .ok r => dfLoop (r.content_length.getD 0) s e r.chunks 0

/-- The fixed platform-specific yt-dlp release URL (lib.rs lines 60–64). -/
def ytdlp_url (windows : Bool) : String :=
  if windows then
    "https://github.com/yt-dlp/yt-dlp/releases/latest/download/yt-dlp.exe"
  else
    "https://github.com/yt-dlp/yt-dlp/releases/latest/download/yt-dlp_macos"

/-- The fixed platform-specific ffmpeg release URL (lib.rs lines 72–79). -/
def ffmpeg_url (windows : Bool) : String :=
  if windows then
    "https://github.com/BtbN/ffmpeg-builds/releases/latest/download/ffmpeg-master-latest-win64-gpl.zip"
  else
    "https://evermeet.cx/ffmpeg/getrelease/zip"

/-- The environment a `download_deps` run observes: the platform, whether the
target directory could be created, which binaries already exist on disk, the
HTTP response for each download that would be attempted, and the outcome of
the blocking extract step. -/
structure ProvEnv where
  windows : Bool
  create_dir : Except String Unit
  ytdlp_exists : Bool
  ffmpeg_exists : Bool
  ytdlp_resp : Except String HttpResp
  ffmpeg_resp : Except String HttpResp
  extract_res : Except String Unit

/-- The yt-dlp branch of `download_deps` (lib.rs lines 58–68): skipped when
the binary exists; otherwise emits the status event, requests the fixed URL
and streams it with progress sub-range [0, 0.12]. Returns result, events and
requested URLs. -/
def ytdlp_step (env : ProvEnv) : Except String Unit × List Event × List String :=
  if env.ytdlp_exists then (.ok (), [], [])
  else
    let r := download_file env.ytdlp_resp 0 (12 / 100)
    (r.1, Event.setupTask "Downloading yt-dlp…" :: r.2.2.map Event.setupProgress,
      [ytdlp_url env.windows])

/-- The ffmpeg branch of `download_deps` (lib.rs lines 70–98): skipped when
the binary exists; otherwise emits the status event, streams the archive with
progress sub-range [0.12, 0.93], then emits the extraction status and a 0.93
progress event and runs the blocking extraction. -/
def ffmpeg_step (env : ProvEnv) : Except String Unit × List Event × List String :=
  if env.ffmpeg_exists then (.ok (), [], [])
  else
    let r := download_file env.ffmpeg_resp (12 / 100) (93 / 100)
    let evs := Event.setupTask "Downloading ffmpeg…" :: r.2.2.map Event.setupProgress
    match r.1 with
    | .error e => (.error e, evs, [ffmpeg_url env.windows])
    | .ok _ =>
      let evs2 := evs ++ [Event.setupTask "Extracting ffmpeg…", Event.setupProgress (93 / 100)]
      match env.extract_res with
      | .error e => (.error e, evs2, [ffmpeg_url env.windows])
      | .ok _ => (.ok (), evs2, [ffmpeg_url env.windows])

/-- Embedding of `download_deps` (lib.rs lines 53–103): create the bin
directory, run the yt-dlp branch then the ffmpeg branch (each aborting the
whole call on error, keeping the events and requests made so far), and on
success emit the final `setup-progress 1.0` followed by `setup-done`. -/
def download_deps (env : ProvEnv) : Except String Unit × List Event × List String :=
  match env.create_dir with
  | .error e => (.error e, [], [])
  | .ok _ =>
    let s1 := ytdlp_step env
    match s1.1 with
    | .error e => (.error e, s1.2.1, s1.2.2)
    | .ok _ =>
      let s2 := ffmpeg_step env
      match s2.1 with
      | .error e => (.error e, s1.2.1 ++ s2.2.1, s1.2.2 ++ s2.2.2)
      | .ok _ =>
        (.ok (), s1.2.1 ++ s2.2.1 ++ [Event.setupProgress 1, Event.setupDone],
          s1.2.2 ++ s2.2.2)

/-- The `setup-progress` payloads in an event list, in emission order. -/
def setupProgressValues (evs : List Event) : List ℚ :=
  evs.filterMap fun e =>
    match e with
    | .setupProgress v => some v
    | _ => none

/-- C5: provisioning is idempotent — whenever both binary paths already exist
(and the bin directory is creatable), `download_deps` performs no network
requests, skips both download branches, emits exactly a final `setup-progress`
of 1.0 followed by `setup-done`, and returns success. -/
theorem c5_idempotence (env : ProvEnv)
    (hdir : env.create_dir = .ok ())
    (hy : env.ytdlp_exists = true)
    (hf : env.ffmpeg_exists = true) :
    download_deps env = (.ok (), [Event.setupProgress 1, Event.setupDone], []) := by
  simp [download_deps, ytdlp_step, ffmpeg_step, hdir, hy, hf]

/-- Witness for C5: a concrete environment with both binaries present. -/
theorem c5_witness :
    (ProvEnv.mk false (.ok ()) true true (.error "net") (.error "net") (.ok ())).create_dir
        = .ok ()
    ∧ download_deps (ProvEnv.mk false (.ok ()) true true (.error "net") (.error "net") (.ok ()))
        = (.ok (), [Event.setupProgress 1, Event.setupDone], []) :=
  ⟨rfl, c5_idempotence _ rfl rfl rfl⟩

/-- With `total = 0` the loop emits nothing, writes every chunk, and succeeds
on an error-free stream. -/
theorem dfLoop_total_zero (s e : ℚ) (css : List (List Nat)) :
    ∀ received, dfLoop 0 s e (css.map Except.ok) received = (.ok (), css, []) := by
  induction css with
  | nil => intro received; rfl
  | cons c rest ih =>
    intro received
    simp [dfLoop, ih (received + c.length)]

/-- C10: when the HTTP response reports no content length (total defaulted
to 0), `download_file` emits no `setup-progress` values at all, still writes
every received chunk to the destination, and returns success when the stream
ends without error. -/
theorem c10_no_content_length (css : List (List Nat)) (s e : ℚ) :
    download_file (.ok (HttpResp.mk none (css.map Except.ok))) s e
      = (.ok (), css, []) := by
  simp [download_file, dfLoop_total_zero]

-- ── Archive extraction (lib.rs 266–289) ──────────────────────────────────────

/-- Split a character list at every `/`, keeping empty pieces. -/
def splitSlash : List Char → List Char → List (List Char)
  | [], acc => [acc.reverse]
  | c :: rest, acc =>
    if c = '/' then acc.reverse :: splitSlash rest []
    else splitSlash rest (c :: acc)

/-- Rust `Path::file_name(..).and_then(to_str).unwrap_or("")` for a
slash-separated archive entry name: the last non-empty, non-`.` path
component, with `".."` (and the empty path) mapped to the empty string. -/
def file_name (path : String) : String :=
  let comps := (splitSlash path.data []).filter
    (fun comp => comp != [] && comp != ['.'])
  match comps.getLast? with
  | some comp => if comp = ['.', '.'] then "" else String.mk comp
  | none => ""

/-- Embedding of `extract_binary` (lib.rs lines 266–289): the archive is its
list of entries (name, bytes) in order. Scan entries, compare each entry's
base filename to the target, copy the first match byte-for-byte and stop; if
none matches, fail naming the missing binary. -/
def extract_binary (archive : List (String × List Nat)) (binary_name : String) :
    Except String (List Nat) :=
  match archive with
  | [] => .error (binary_name ++ " not found in archive")
  | (name, data) :: rest =>
    if file_name name = binary_name then .ok data
    else extract_binary rest binary_name

/-- C7: `extract_binary` returns the bytes of the first entry whose base
filename matches the target, regardless of what follows; when no entry's base
filename matches, it fails with an error naming the missing binary; and on the
documented archive `[a/b/ffmpeg, x/ffmpeg.txt]`, requesting `ffmpeg` extracts
exactly the first entry's bytes. -/
theorem c7_extract_binary :
    (∀ (pre : List (String × List Nat)) (name : String) (data : List Nat)
        (post : List (String × List Nat)) (target : String),
      (∀ entry ∈ pre, file_name entry.1 ≠ target) →
      file_name name = target →
      extract_binary (pre ++ (name, data) :: post) target = .ok data)
    ∧ (∀ (archive : List (String × List Nat)) (target : String),
        (∀ entry ∈ archive, file_name entry.1 ≠ target) →
        extract_binary archive target = .error (target ++ " not found in archive"))
    ∧ extract_binary [("a/b/ffmpeg", [1, 2, 3]), ("x/ffmpeg.txt", [4, 5])] "ffmpeg"
        = .ok [1, 2, 3] := by
  refine ⟨?_, ?_, by rfl⟩
  · intro pre name data post target hpre hname
    induction pre with
    | nil => simp [extract_binary, hname]
    | cons p rest ih =>
      have hp : file_name p.1 ≠ target := hpre p (List.mem_cons_self p rest)
      have : extract_binary (rest ++ (name, data) :: post) target = .ok data :=
        ih fun entry he => hpre entry (List.mem_cons_of_mem p he)
      cases p with
      | mk pn pd => simpa [extract_binary, hp] using this
  · intro archive target hnone
    induction archive with
    | nil => rfl
    | cons p rest ih =>
      have hp : file_name p.1 ≠ target := hnone p (List.mem_cons_self p rest)
      have : extract_binary rest target = .error (target ++ " not found in archive") :=
        ih fun entry he => hnone entry (List.mem_cons_of_mem p he)
      cases p with
      | mk pn pd => simpa [extract_binary, hp] using this

/-- Witness for C7: the documented archive, with the no-match conjunct applied
to the singleton archive `[x/ffmpeg.txt]` for the absent name `ffmpeg`. -/
theorem c7_witness :
    extract_binary ([("x/ffmpeg.txt", ([4, 5] : List Nat))] ++ ("a/b/ffmpeg", [1, 2, 3]) :: [])
        "ffmpeg" = .ok [1, 2, 3]
    ∧ extract_binary [("x/ffmpeg.txt", ([4, 5] : List Nat))] "ffmpeg"
        = .error ("ffmpeg" ++ " not found in archive") :=
  ⟨c7_extract_binary.1 [("x/ffmpeg.txt", [4, 5])] "a/b/ffmpeg" [1, 2, 3] [] "ffmpeg"
      (by decide) (by decide),
    c7_extract_binary.2.1 [("x/ffmpeg.txt", [4, 5])] "ffmpeg" (by decide)⟩

-- ── Provisioning progress monotonicity (C6) ──────────────────────────────────

/-- The byte length a chunk contributes to `received` (0 for a stream error,
which ends the loop anyway). -/
def chunkLen : Except String (List Nat) → Nat
  | .ok c => c.length
  | .error _ => 0

/-- Total number of bytes in a chunk stream. -/
def sumLens (cs : List (Except String (List Nat))) : Nat := (cs.map chunkLen).sum

/-- A response reports its true content length: `content_length` equals the
total size of the stream. (A failed request is vacuously truthful.) -/
def respTruthful : Except String HttpResp → Bool
  | .error _ => true
  | .ok r => r.content_length == some (sumLens r.chunks)

/-- With `total = 0` the loop emits no progress values at all. -/
theorem dfLoop_zero_values (s e : ℚ) :
    ∀ (cs : List (Except String (List Nat))) (received : Nat),
      (dfLoop 0 s e cs received).2.2 = [] := by
  intro cs
  induction cs with
  | nil => intro received; rfl
  | cons c rest ih =>
    intro received
    cases c with
    | error err => rfl
    | ok ch => simp [dfLoop, ih]

/-- Core monotonicity of the streaming loop: when `0 < total`, `s ≤ e` and the
stream holds at most `total - received` further bytes, the emitted progress
values are pairwise non-decreasing and each lies between the current fraction
`s + received/total * (e - s)` and `e`. -/
theorem dfLoop_progress (total : Nat) (s e : ℚ) (ht : 0 < total) (hse : s ≤ e) :
    ∀ (cs : List (Except String (List Nat))) (received : Nat),
      received + sumLens cs ≤ total →
      List.Pairwise (· ≤ ·) (dfLoop total s e cs received).2.2
      ∧ ∀ v ∈ (dfLoop total s e cs received).2.2,
          s + ((received : ℚ) / (total : ℚ)) * (e - s) ≤ v ∧ v ≤ e := by
  have htq : (0 : ℚ) < (total : ℚ) := by exact_mod_cast ht
  have hes : (0 : ℚ) ≤ e - s := sub_nonneg.2 hse
  intro cs
  induction cs with
  | nil =>
    intro received _
    exact ⟨List.Pairwise.nil, by intro v hv; simp [dfLoop] at hv⟩
  | cons c rest ih =>
    intro received hb
    cases c with
    | error err =>
      exact ⟨List.Pairwise.nil, by intro v hv; simp [dfLoop] at hv⟩
    | ok ch =>
      have hb' : received + ch.length + sumLens rest ≤ total := by
        simp only [sumLens, List.map_cons, List.sum_cons, chunkLen] at hb ⊢
        omega
      have ihr := ih (received + ch.length) hb'
      have hmono :
          s + ((received : ℚ) / (total : ℚ)) * (e - s)
            ≤ s + (((received + ch.length : ℕ) : ℚ) / (total : ℚ)) * (e - s) := by
        have hle : ((received : ℚ)) ≤ (((received + ch.length : ℕ) : ℚ)) := by
          exact_mod_cast Nat.le_add_right received ch.length
        exact add_le_add_left
          (mul_le_mul_of_nonneg_right ((div_le_div_iff_of_pos_right htq).2 hle) hes) s
      have hup :
          s + (((received + ch.length : ℕ) : ℚ) / (total : ℚ)) * (e - s) ≤ e := by
        have hle' : received + ch.length ≤ total := by omega
        have hle : (((received + ch.length : ℕ) : ℚ)) ≤ (total : ℚ) := by
          exact_mod_cast hle'
        have hfrac : (((received + ch.length : ℕ) : ℚ) / (total : ℚ)) ≤ 1 :=
          (div_le_one htq).2 hle
        calc s + (((received + ch.length : ℕ) : ℚ) / (total : ℚ)) * (e - s)
            ≤ s + 1 * (e - s) :=
              add_le_add_left (mul_le_mul_of_nonneg_right hfrac hes) s
          _ = e := by ring
      constructor
      · simp only [dfLoop, if_pos ht, List.singleton_append]
        exact List.pairwise_cons.2
          ⟨fun v hv => le_of_eq_of_le (by push_cast; ring) ((ihr.2 v hv).1), ihr.1⟩
      · intro v hv
        simp only [dfLoop, if_pos ht, List.singleton_append, List.mem_cons] at hv
        rcases hv with hv | hv
        · subst hv
          exact ⟨by push_cast at hmono ⊢; convert hmono using 2,
            by push_cast at hup ⊢; convert hup using 2⟩
        · exact ⟨le_trans hmono ((ihr.2 v hv).1), (ihr.2 v hv).2⟩

/-- Progress values of one `download_file` whose response is truthful about
its length: pairwise non-decreasing and all within `[s, e]`. -/
theorem download_file_progress (r : HttpResp) (s e : ℚ) (hse : s ≤ e)
    (htruth : r.content_length = some (sumLens r.chunks)) :
    List.Pairwise (· ≤ ·) (download_file (.ok r) s e).2.2
    ∧ ∀ v ∈ (download_file (.ok r) s e).2.2, s ≤ v ∧ v ≤ e := by
  simp only [download_file]
  rw [htruth, Option.getD_some]
  by_cases h0 : sumLens r.chunks = 0
  · rw [h0, dfLoop_zero_values]
    exact ⟨List.Pairwise.nil, by intro v hv; simp at hv⟩
  · have ht : 0 < sumLens r.chunks := Nat.pos_of_ne_zero h0
    have h := dfLoop_progress (sumLens r.chunks) s e ht hse r.chunks 0 (by omega)
    refine ⟨h.1, fun v hv => ⟨?_, (h.2 v hv).2⟩⟩
    have := (h.2 v hv).1
    simpa using this

/-- `setupProgressValues` strips a mapped progress list back to its payloads. -/
theorem spv_map (l : List ℚ) :
    setupProgressValues (l.map Event.setupProgress) = l := by
  induction l with
  | nil => rfl
  | cons v rest ih => simp [setupProgressValues] at ih ⊢; exact ih

/-- `setupProgressValues` distributes over append. -/
theorem spv_append (a b : List Event) :
    setupProgressValues (a ++ b) = setupProgressValues a ++ setupProgressValues b := by
  simp [setupProgressValues]

/-- Two pairwise non-decreasing blocks separated by a bound `m` concatenate to
a pairwise non-decreasing list. -/
theorem pairwise_blocks {l1 l2 : List ℚ} {m : ℚ}
    (h1 : List.Pairwise (· ≤ ·) l1) (h2 : List.Pairwise (· ≤ ·) l2)
    (hb1 : ∀ v ∈ l1, v ≤ m) (hb2 : ∀ v ∈ l2, m ≤ v) :
    List.Pairwise (· ≤ ·) (l1 ++ l2) :=
  List.pairwise_append.2 ⟨h1, h2, fun a ha b hb => le_trans (hb1 a ha) (hb2 b hb)⟩

/-- A `setup-task` event contributes no progress value. -/
theorem spv_cons_task (msg : String) (evs : List Event) :
    setupProgressValues (Event.setupTask msg :: evs) = setupProgressValues evs := rfl

/-- A singleton progress event contributes exactly its payload. -/
theorem spv_single (x : ℚ) :
    setupProgressValues [Event.setupProgress x] = [x] := rfl

/-- A successful yt-dlp branch with a truthful response emits pairwise
non-decreasing progress values within `[0, 0.12]`. -/
theorem ytdlp_step_progress (env : ProvEnv)
    (hty : respTruthful env.ytdlp_resp = true)
    (hok : (ytdlp_step env).1 = .ok ()) :
    List.Pairwise (· ≤ ·) (setupProgressValues (ytdlp_step env).2.1)
    ∧ ∀ v ∈ setupProgressValues (ytdlp_step env).2.1, 0 ≤ v ∧ v ≤ 12 / 100 := by
  unfold ytdlp_step at hok ⊢
  by_cases hex : env.ytdlp_exists
  · simp only [hex, if_true]
    exact ⟨List.Pairwise.nil, by intro v hv; simp [setupProgressValues] at hv⟩
  · simp only [hex, if_false, Bool.false_eq_true] at hok ⊢
    cases hresp : env.ytdlp_resp with
    | error err =>
      rw [hresp] at hok
      simp [download_file] at hok
    | ok r =>
      rw [hresp] at hty
      simp only [respTruthful, beq_iff_eq] at hty
      have h := download_file_progress r 0 (12 / 100) (by norm_num) hty
      rw [spv_cons_task, spv_map]
      exact h

/-- A successful ffmpeg branch with a truthful response emits pairwise
non-decreasing progress values within `[0.12, 0.93]` (including the literal
`0.93` event before extraction). -/
theorem ffmpeg_step_progress (env : ProvEnv)
    (htf : respTruthful env.ffmpeg_resp = true)
    (hok : (ffmpeg_step env).1 = .ok ()) :
    List.Pairwise (· ≤ ·) (setupProgressValues (ffmpeg_step env).2.1)
    ∧ ∀ v ∈ setupProgressValues (ffmpeg_step env).2.1, 12 / 100 ≤ v ∧ v ≤ 93 / 100 := by
  unfold ffmpeg_step at hok ⊢
  by_cases hex : env.ffmpeg_exists
  · simp only [hex, if_true]
    exact ⟨List.Pairwise.nil, by intro v hv; simp [setupProgressValues] at hv⟩
  · simp only [hex, if_false, Bool.false_eq_true] at hok ⊢
    cases hresp : env.ffmpeg_resp with
    | error err =>
      rw [hresp] at hok
      simp [download_file] at hok
    | ok r =>
      rw [hresp] at hok
      rw [hresp] at htf
      simp only [respTruthful, beq_iff_eq] at htf
      have h := download_file_progress r (12 / 100) (93 / 100) (by norm_num) htf
      cases hdf : (download_file (Except.ok r) (12 / 100) (93 / 100)).1 with
      | error err =>
        rw [hdf] at hok
        simp at hok
      | ok u =>
        rw [hdf] at hok
        cases hxt : env.extract_res with
        | error err2 =>
          rw [hxt] at hok
          simp at hok
        | ok u2 =>
          simp only [spv_append, spv_cons_task, spv_single, spv_map]
          constructor
          · refine @pairwise_blocks _ _ (93 / 100) h.1 (List.pairwise_singleton _ _) ?_ ?_
            · intro v hv
              exact (h.2 v hv).2
            · intro v hv
              simp at hv
              simp [hv]
          · intro v hv
            rcases List.mem_append.1 hv with hv | hv
            · exact ⟨(h.2 v hv).1, (h.2 v hv).2⟩
            · simp at hv
              subst hv
              norm_num

/-- The final progress/done pair contributes exactly its progress payload. -/
theorem spv_final (x : ℚ) :
    setupProgressValues [Event.setupProgress x, Event.setupDone] = [x] := rfl

/-- C6: across one successful `download_deps` run in which each HTTP response
reports its true content length, the emitted `setup-progress` values are
pairwise non-decreasing, every value lies in `[0, 1]`, and the final value
emitted before `setup-done` is exactly 1. -/
theorem c6_progress_monotone (env : ProvEnv)
    (hty : respTruthful env.ytdlp_resp = true)
    (htf : respTruthful env.ffmpeg_resp = true)
    (hok : (download_deps env).1 = .ok ()) :
    List.Pairwise (· ≤ ·) (setupProgressValues (download_deps env).2.1)
    ∧ (∀ v ∈ setupProgressValues (download_deps env).2.1, 0 ≤ v ∧ v ≤ 1)
    ∧ (setupProgressValues (download_deps env).2.1).getLast? = some 1 := by
  cases hcd : env.create_dir with
  | error e =>
    simp [download_deps, hcd] at hok
  | ok u =>
    cases u
    cases hs1 : (ytdlp_step env).1 with
    | error e1 =>
      simp [download_deps, hcd, hs1] at hok
    | ok u1 =>
      cases u1
      cases hs2 : (ffmpeg_step env).1 with
      | error e2 =>
        simp [download_deps, hcd, hs1, hs2] at hok
      | ok u2 =>
        cases u2
        have hdd : (download_deps env).2.1
            = ((ytdlp_step env).2.1 ++ (ffmpeg_step env).2.1)
              ++ [Event.setupProgress 1, Event.setupDone] := by
          simp [download_deps, hcd, hs1, hs2]
        have H1 := ytdlp_step_progress env hty hs1
        have H2 := ffmpeg_step_progress env htf hs2
        rw [hdd, spv_append, spv_append, spv_final]
        have hb12 : ∀ v ∈ setupProgressValues (ytdlp_step env).2.1
            ++ setupProgressValues (ffmpeg_step env).2.1, v ≤ 1 := by
          intro v hv
          rcases List.mem_append.1 hv with hv | hv
          · exact le_trans (H1.2 v hv).2 (by norm_num)
          · exact le_trans (H2.2 v hv).2 (by norm_num)
        refine ⟨?_, ?_, ?_⟩
        · refine @pairwise_blocks _ _ 1 ?_ (List.pairwise_singleton _ _) hb12 ?_
          · refine @pairwise_blocks _ _ (12 / 100) H1.1 H2.1 ?_ ?_
            · intro v hv
              exact (H1.2 v hv).2
            · intro v hv
              exact (H2.2 v hv).1
          · intro v hv
            simp at hv
            simp [hv]
        · intro v hv
          rcases List.mem_append.1 hv with hv | hv
          · rcases List.mem_append.1 hv with hv | hv
            · exact ⟨(H1.2 v hv).1, le_trans (H1.2 v hv).2 (by norm_num)⟩
            · exact ⟨le_trans (by norm_num) (H2.2 v hv).1,
                le_trans (H2.2 v hv).2 (by norm_num)⟩
          · simp at hv
            subst hv
            norm_num
        · exact List.getLast?_concat _

/-- Witness for C6: a concrete environment downloading yt-dlp in two 5-byte
chunks with a truthful content length of 10 (ffmpeg already present): the run
succeeds and the emitted progress values are `[0.06, 0.12, 1]`. -/
theorem c6_witness :
    (respTruthful (ProvEnv.mk false (.ok ()) false true
        (.ok (HttpResp.mk (some 10) [.ok [7, 7, 7, 7, 7], .ok [7, 7, 7, 7, 7]]))
        (.error "skip") (.ok ())).ytdlp_resp = true
      ∧ respTruthful (ProvEnv.mk false (.ok ()) false true
        (.ok (HttpResp.mk (some 10) [.ok [7, 7, 7, 7, 7], .ok [7, 7, 7, 7, 7]]))
        (.error "skip") (.ok ())).ffmpeg_resp = true
      ∧ (download_deps (ProvEnv.mk false (.ok ()) false true
        (.ok (HttpResp.mk (some 10) [.ok [7, 7, 7, 7, 7], .ok [7, 7, 7, 7, 7]]))
        (.error "skip") (.ok ()))).1 = .ok ())
    ∧ (List.Pairwise (· ≤ ·) (setupProgressValues (download_deps (ProvEnv.mk false (.ok ()) false true
        (.ok (HttpResp.mk (some 10) [.ok [7, 7, 7, 7, 7], .ok [7, 7, 7, 7, 7]]))
        (.error "skip") (.ok ()))).2.1)
      ∧ (∀ v ∈ setupProgressValues (download_deps (ProvEnv.mk false (.ok ()) false true
        (.ok (HttpResp.mk (some 10) [.ok [7, 7, 7, 7, 7], .ok [7, 7, 7, 7, 7]]))
        (.error "skip") (.ok ()))).2.1, 0 ≤ v ∧ v ≤ 1)
      ∧ (setupProgressValues (download_deps (ProvEnv.mk false (.ok ()) false true
        (.ok (HttpResp.mk (some 10) [.ok [7, 7, 7, 7, 7], .ok [7, 7, 7, 7, 7]]))
        (.error "skip") (.ok ()))).2.1).getLast? = some 1) :=
  ⟨⟨by decide, by decide, by with_unfolding_all rfl⟩,
    c6_progress_monotone _ (by decide) (by decide) (by with_unfolding_all rfl)⟩

end VideoDownloader
